import Mathlib

/-!
Verification of the media-processing microservice (delman-site-microservices).

The definitions below are a shallow embedding of the TypeScript source:

* `src/utils/audio.ts` (`detectAudioFormat`, `resamplePeaks`,
  `validateAudioExtension`, temp-file lifecycle),
* `src/utils/debug.ts` (`parseDebugLevel`, as in the legacy monolith copy),
* `src/types/index.ts` (format allowlists, debug levels, query schemas),
* `src/routes/audio.ts` (`POST /audio/peaks/batch` handler),
* `src/routes/image.ts` / image batch route (`POST /image/batch` handler),
* `src/middleware/errorHandler.ts` (multer error mapping).

JavaScript numbers are modelled as exact rationals (`ℚ`); `Math.floor` is
`Int.floor`, `Math.round` is `⌊x + 1/2⌋` (JS rounds half toward +∞).
Buffers are lists of byte values (`List Nat`); `buffer[i]` reads are `List.getD`
(every read in the embedded code is length-guarded exactly as in the source).
External subprocesses (ffprobe durations, audiowaveform peak extraction) and
the sharp image transform are oracles passed in as total functions; the one
filesystem fact the batch handler depends on is modelled explicitly: peak
extraction fails (the promise rejects) when the temporary file it is pointed
at has already been deleted.
-/

namespace Delman

/-! ## Formats and debug levels (src/types/index.ts) -/

/-- The audio format tags recognised by the sniffer (`AudioFormat` union). -/
inductive AudioFormat where
  | mp3 | wav | ogg | flac | aac | m4a | webm
deriving DecidableEq, Repr

/-- `SUPPORTED_AUDIO_FORMATS` as the list of extension strings. -/
def SUPPORTED_AUDIO_FORMATS : List String :=
  ["mp3", "wav", "ogg", "flac", "aac", "m4a", "webm"]

/-- The string name of an `AudioFormat` tag (the TS union values are strings). -/
def AudioFormat.str : AudioFormat → String
  | .mp3 => "mp3" | .wav => "wav" | .ogg => "ogg" | .flac => "flac"
  | .aac => "aac" | .m4a => "m4a" | .webm => "webm"

/-- `validateAudioExtension(ext)`: membership in the supported-format allowlist. -/
def validateAudioExtension (ext : String) : Bool :=
  SUPPORTED_AUDIO_FORMATS.contains ext

/-- `DEBUG_LEVELS` (shared enum). -/
inductive DebugLevel where
  | debug | info | warn | error | crit
deriving DecidableEq, Repr

/-- Lookup of a string among the five debug-level names. -/
def strToDebugLevel (s : String) : Option DebugLevel :=
  if s = "debug" then some .debug
  else if s = "info" then some .info
  else if s = "warn" then some .warn
  else if s = "error" then some .error
  else if s = "crit" then some .crit
  else none

/-! ## Format sniffer (src/utils/audio.ts, `detectAudioFormat`) -/

/-- `buffer[i]` on a byte buffer; all uses below are length-guarded as in the
source, so the default value is never observed. -/
def byteAt (b : List Nat) (i : Nat) : Nat := b.getD i 0

/-- The `ftyp` brand bytes at offsets 8..11 , compared after Node's `'ascii'`
decoding (which masks each byte to 7 bits) against `M4A `, `isom`, `mp42`,
`mp41`. -/
def m4aBrandOk (b : List Nat) : Bool :=
  let c8 := (byteAt b 8) % 128
  let c9 := (byteAt b 9) % 128
  let c10 := (byteAt b 10) % 128
  let c11 := (byteAt b 11) % 128
  (c8 = 0x4d && c9 = 0x34 && c10 = 0x41 && c11 = 0x20) ||
  (c8 = 0x69 && c9 = 0x73 && c10 = 0x6f && c11 = 0x6d) ||
  (c8 = 0x6d && c9 = 0x70 && c10 = 0x34 && c11 = 0x32) ||
  (c8 = 0x6d && c9 = 0x70 && c10 = 0x34 && c11 = 0x31)

/-- `detectAudioFormat(buffer)`: magic-byte classification. The source's
nested `if` for WAV (RIFF at 0, WAVE at 8) falls through to the later
checks when the inner condition fails, which the flattened chain below
preserves. -/
def detectAudioFormat (b : List Nat) : Option AudioFormat :=
  if b.length < 4 then none
  else if byteAt b 0 = 0x52 && byteAt b 1 = 0x49 && byteAt b 2 = 0x46 &&
          byteAt b 3 = 0x46 && 12 ≤ b.length && byteAt b 8 = 0x57 &&
          byteAt b 9 = 0x41 && byteAt b 10 = 0x56 && byteAt b 11 = 0x45 then
    some .wav
  else if byteAt b 0 = 0x4f && byteAt b 1 = 0x67 && byteAt b 2 = 0x67 &&
          byteAt b 3 = 0x53 then
    some .ogg
  else if byteAt b 0 = 0x66 && byteAt b 1 = 0x4c && byteAt b 2 = 0x61 &&
          byteAt b 3 = 0x43 then
    some .flac
  else if byteAt b 0 = 0x1a && byteAt b 1 = 0x45 && byteAt b 2 = 0xdf &&
          byteAt b 3 = 0xa3 then
    some .webm
  else if 12 ≤ b.length && byteAt b 4 = 0x66 && byteAt b 5 = 0x74 &&
          byteAt b 6 = 0x79 && byteAt b 7 = 0x70 && m4aBrandOk b then
    some .m4a
  else if byteAt b 0 = 0x49 && byteAt b 1 = 0x44 && byteAt b 2 = 0x33 then
    some .mp3
  else if byteAt b 0 = 0xff && (byteAt b 1).land 0xf0 = 0xf0 then
    some .aac
  else if byteAt b 0 = 0xff && (byteAt b 1).land 0xe0 = 0xe0 then
    some .mp3
  else none

/-- The claim's fixed-offset signature table, one row per recognised tag,
in the listed priority order (ADTS/aac before the generic MP3 sync). -/
def signatureTable : List ((List Nat → Bool) × AudioFormat) :=
  [ (fun b => byteAt b 0 = 0x52 && byteAt b 1 = 0x49 && byteAt b 2 = 0x46 &&
       byteAt b 3 = 0x46 && 12 ≤ b.length && byteAt b 8 = 0x57 &&
       byteAt b 9 = 0x41 && byteAt b 10 = 0x56 && byteAt b 11 = 0x45, .wav),
    (fun b => byteAt b 0 = 0x4f && byteAt b 1 = 0x67 && byteAt b 2 = 0x67 &&
       byteAt b 3 = 0x53, .ogg),
    (fun b => byteAt b 0 = 0x66 && byteAt b 1 = 0x4c && byteAt b 2 = 0x61 &&
       byteAt b 3 = 0x43, .flac),
    (fun b => byteAt b 0 = 0x1a && byteAt b 1 = 0x45 && byteAt b 2 = 0xdf &&
       byteAt b 3 = 0xa3, .webm),
    (fun b => 12 ≤ b.length && byteAt b 4 = 0x66 && byteAt b 5 = 0x74 &&
       byteAt b 6 = 0x79 && byteAt b 7 = 0x70 && m4aBrandOk b, .m4a),
    (fun b => byteAt b 0 = 0x49 && byteAt b 1 = 0x44 && byteAt b 2 = 0x33, .mp3),
    (fun b => byteAt b 0 = 0xff && (byteAt b 1).land 0xf0 = 0xf0, .aac),
    (fun b => byteAt b 0 = 0xff && (byteAt b 1).land 0xe0 = 0xe0, .mp3) ]

/-- The format sniffer as described by the specification: a buffer shorter
than 4 bytes is unknown, otherwise the first matching row of the signature
table decides, and no match is unknown. -/
def detectAudioFormatSpec (b : List Nat) : Option AudioFormat :=
  if b.length < 4 then none
  else signatureTable.findSome? (fun row => if row.1 b then some row.2 else none)

/-! ## Peak resampling (src/utils/audio.ts, `resamplePeaks`) -/

/-- JavaScript `Math.round`: half-integers round toward +∞. -/
def jsRound (x : ℚ) : ℤ := ⌊x + 1 / 2⌋

/-- `Math.round(x * 1000) / 1000`: round to 3 decimal places. -/
def round3 (x : ℚ) : ℚ := (jsRound (x * 1000) : ℚ) / 1000

/-- Segment start index `Math.floor(i * ratio)` with `ratio = len / target`. -/
def resampleStart (len target i : ℕ) : ℕ :=
  (⌊(i : ℚ) * ((len : ℚ) / (target : ℚ))⌋).toNat

/-- Segment end index `Math.floor((i + 1) * ratio)`. -/
def resampleStop (len target i : ℕ) : ℕ :=
  (⌊((i : ℚ) + 1) * ((len : ℚ) / (target : ℚ))⌋).toNat

/-- The inner pooling loop: `maxPeak` starts at `0` and is folded with
`Math.max` over `peaks[j]` for `j` from `start` while `j < end && j < len`. -/
def poolMax (peaks : List ℚ) (start stop : ℕ) : ℚ :=
  ((peaks.drop start).take (stop - start)).foldl max 0

/-- `resamplePeaks(peaks, targetSamples)`: identity on matching length,
empty on empty input, else per-target-index max-pooling with boundary
fallbacks, each output rounded to 3 decimals. -/
def resamplePeaks (peaks : List ℚ) (targetSamples : ℕ) : List ℚ :=
  if peaks.length = 0 then []
  else if peaks.length = targetSamples then peaks
  else
    (List.range targetSamples).map (fun i =>
      let start := resampleStart peaks.length targetSamples i
      let stop := resampleStop peaks.length targetSamples i
      let m := poolMax peaks start stop
      let m := if peaks.length ≤ start then peaks.getD (peaks.length - 1) 0
               else if start = stop then peaks.getD start 0
               else m
      round3 m)

/-- The maximum of a peak segment as the claim describes it: the maximum
value among the segment's entries (no artificial `0` seed). -/
def segMax (l : List ℚ) : ℚ := l.foldl max (l.headD 0)

/-- `resamplePeaks` with the `start >= peaks.length` fallback branch
removed: used to state that the fallback is unreachable. -/
def resamplePeaksNoFb (peaks : List ℚ) (targetSamples : ℕ) : List ℚ :=
  if peaks.length = 0 then []
  else if peaks.length = targetSamples then peaks
  else
    (List.range targetSamples).map (fun i =>
      let start := resampleStart peaks.length targetSamples i
      let stop := resampleStop peaks.length targetSamples i
      let m := poolMax peaks start stop
      let m := if start = stop then peaks.getD start 0 else m
      round3 m)

/-- The resampling step exactly as the claim words it: output index `i` is
the rounded maximum peak over source indices in
`[⌊i·ratio⌋, ⌊(i+1)·ratio⌋)`, taking the single value at `start` when
`start = stop`, and repeating the last source value when `start` is at or
beyond the source length. -/
def resamplePeaksClaim (peaks : List ℚ) (targetSamples : ℕ) : List ℚ :=
  (List.range targetSamples).map (fun i =>
    let start := resampleStart peaks.length targetSamples i
    let stop := resampleStop peaks.length targetSamples i
    let m := if peaks.length ≤ start then peaks.getD (peaks.length - 1) 0
             else if start = stop then peaks.getD start 0
             else segMax ((peaks.drop start).take (stop - start))
    round3 m)

/-! ## Debug-level parsing

`parseDebugLevel` (src/utils/debug.ts, identical to the legacy monolith copy):
falsy input (absent or empty string) and values outside the enum yield
`undefined`; matching is done on the lowercased value.

The single-file endpoints instead validate `debug` through the zod query
schemas (src/types/index.ts): `z.string().transform(toLowerCase)
.pipe(z.enum(DEBUG_LEVELS)).optional()`; a present value outside the enum
makes `safeParse` fail, and the handler then responds
400 `Invalid parameters`. -/

/-- `value.toLowerCase()`, character by character. -/
def lowerStr (s : String) : String := ⟨s.data.map Char.toLower⟩

/-- `parseDebugLevel(value?)` from src/utils/debug.ts. -/
def parseDebugLevel (value : Option String) : Option DebugLevel :=
  match value with
  | none => none
  | some v => if v = "" then none else strToDebugLevel (lowerStr v)

/-- The `debug` field of `audioPeaksQuerySchema` / `imageConvertQuerySchema`:
absent is fine; a present string is lowercased and piped into the enum,
which rejects anything outside it. -/
def queryDebugField (v : Option String) : Except String (Option DebugLevel) :=
  match v with
  | none => .ok none
  | some s =>
    match strToDebugLevel (lowerStr s) with
    | some l => .ok (some l)
    | none => .error "Invalid enum value"

/-- Outcome of the query-validation stage of a single-file endpoint
(`POST /audio/peaks`, `POST /image/convert`), restricted to the `debug`
parameter: schema failure means the handler returns 400
`Invalid parameters`; otherwise processing continues with the parsed
debug level. -/
def singleEndpointDebugGate (debugParam : Option String) :
    Nat × Option String × Option DebugLevel :=
  match queryDebugField debugParam with
  | .error _ => (400, some "Invalid parameters", none)
  | .ok l => (200, none, l)

/-! ## Filenames (Node `path` + `sanitizeName`)

String manipulation is done on the underlying character lists so that every
definition computes by structural recursion. -/

/-- Split a character list at every occurrence of `sep`. -/
def splitChars (sep : Char) : List Char → List (List Char)
  | [] => [[]]
  | a :: rest =>
    let r := splitChars sep rest
    if a = sep then [] :: r else (a :: r.headD []) :: r.tail

/-- Join character-list pieces with `sep` between them. -/
def joinChars (sep : Char) : List (List Char) → List Char
  | [] => []
  | [p] => p
  | p :: rest => p ++ sep :: joinChars sep rest

/-- The basename: the part of the path after the last `/`. -/
def basenameOf (s : String) : String :=
  ⟨(splitChars '/' s.data).getLastD s.data⟩

/-- `path.extname(name).toLowerCase().slice(1)`: the lowercased extension
without its dot; empty when the basename has no dot, only a leading dot, or
a trailing dot. -/
def extLower (s : String) : String :=
  let parts := splitChars '.' (basenameOf s).data
  if parts.length ≤ 1 then ""
  else if parts.length = 2 && parts.headD [] = [] then ""
  else ⟨(parts.getLastD []).map Char.toLower⟩

/-- `path.parse(name).name`: the basename with its extension removed. -/
def nameNoExt (s : String) : String :=
  let base := basenameOf s
  let parts := splitChars '.' base.data
  if parts.length ≤ 1 then base
  else if parts.length = 2 && parts.headD [] = [] then base
  else ⟨joinChars '.' parts.dropLast⟩

/-- `sanitizeName`: replace each of the characters `/ \ ? % * : | " < >`
with `_` (src/routes/audio.ts and the image batch route). -/
def sanitizeName (s : String) : String :=
  ⟨s.data.map (fun c =>
    if ['/', '\\', '?', '%', '*', ':', '|', '"', '<', '>'].contains c then '_' else c)⟩

/-! ## Batch data model

Both batch handlers are modelled from the point where the manifest has
already passed `JSON.parse` and the zod schema (`audioBatchManifestSchema`
resp. `imageBatchManifestSchema`): the model's input is the parsed
manifest. External effects are reduced to what the claims are about: the
list of archive entry names in append order, whether the zip response
headers were set (`res.set('Content-Type', 'application/zip')` …), which
temporary files were created (numbered in creation order) and which were
deleted. Subprocess calls are assumed to succeed — durations come from a
total oracle `dur`, and sharp conversion always yields a buffer — except
for the one failure the handler itself can cause: extracting peaks from a
temporary file that has already been deleted rejects, which surfaces as a
thrown error reaching the handler's `catch`. -/

/-- One multipart upload (`Express.Multer.File`): original filename plus
in-memory buffer. -/
structure UFile where
  originalname : String
  buffer : List Nat
deriving DecidableEq, Repr, Inhabited

/-- An audio `VariantSpec` after schema validation. -/
structure AudioVariantSpec where
  samples : Option ℤ := none
  samplesPerMinute : Option ℤ := none
  name : Option String := none
deriving DecidableEq, Repr

/-- An audio `OutputSpec` after schema validation. -/
structure AudioOutputSpec where
  file : String
  variants : List AudioVariantSpec
deriving DecidableEq, Repr

/-- The environment-derived limits used by the batch routes. -/
structure EnvCfg where
  MAX_IMAGE_BATCH_FILES : ℕ := 15
  MAX_IMAGE_VARIANTS_PER_FILE : ℕ := 12
  MAX_AUDIO_BATCH_FILES : ℕ := 3
  MAX_AUDIO_VARIANTS_PER_FILE : ℕ := 4
deriving DecidableEq, Repr

/-- `new Map(files.map(f => [f.originalname, f])).get(nm)`: a JS `Map`
keeps the last entry per key, so lookup finds the last file with that
original name. -/
def fileMapGet (files : List UFile) (nm : String) : Option UFile :=
  files.reverse.find? (fun f => f.originalname == nm)

/-- `fileMap.has(nm)`. -/
def fileMapHas (files : List UFile) (nm : String) : Bool :=
  files.any (fun f => f.originalname == nm)

/-- `fileMap.get(item.file)!`: the uploaded file a manifest item refers to
(only evaluated after the missing-file gate, so the default is never the
observed value). -/
def itemFile (files : List UFile) (item : AudioOutputSpec) : UFile :=
  (fileMapGet files item.file).getD default

/-- The per-input context built by the probing loop of the audio batch
handler (original file, extension, sniffed format, temp-file path, archive
base name, probed duration). -/
structure FileCtx where
  inputFile : UFile
  ext : String
  detectedFormat : Option AudioFormat
  tempPath : ℕ
  baseName : String
  durationSeconds : ℚ
deriving DecidableEq, Repr, Inhabited

/-- `SUPPORTED_AUDIO_FORMATS.join(', ')`. -/
def joinCommaSpace : List String → String
  | [] => ""
  | [s] => s
  | s :: rest => s ++ ", " ++ joinCommaSpace rest

/-- The `Unsupported audio format: …` message of the audio routes. -/
def unsupportedMsg (what : String) : String :=
  "Unsupported audio format: " ++ what ++ ". Supported formats: " ++
    joinCommaSpace SUPPORTED_AUDIO_FORMATS

/-- The probing loop of `POST /audio/peaks/batch` (audio.ts lines 381-411):
per manifest item, look the file up, validate its extension and sniff its
format, then write the buffer to a fresh temp file and probe its duration.
An early 400 return leaves the contexts created so far (and their temp
files) behind. -/
def probeLoop (dur : UFile → ℚ) (files : List UFile) :
    List AudioOutputSpec → ℕ → List FileCtx →
    Except (String × List FileCtx) (List FileCtx)
  | [], _, acc => .ok acc
  | item :: rest, idx, acc =>
    let inputFile := itemFile files item
    let ext := extLower inputFile.originalname
    if ext ≠ "" && !validateAudioExtension ext then
      .error (unsupportedMsg ext, acc)
    else
      match detectAudioFormat inputFile.buffer with
      | some fmt =>
        if !validateAudioExtension fmt.str then
          .error (unsupportedMsg fmt.str, acc)
        else
          probeLoop dur files rest (idx + 1)
            (acc ++ [⟨inputFile, ext, some fmt, idx,
              sanitizeName (nameNoExt inputFile.originalname), dur inputFile⟩])
      | none =>
        probeLoop dur files rest (idx + 1)
          (acc ++ [⟨inputFile, ext, none, idx,
            sanitizeName (nameNoExt inputFile.originalname), dur inputFile⟩])

/-- The context the probing loop builds for one manifest item, with `idx`
the item's position (temp paths are numbered in creation order). -/
def mkFileCtx (dur : UFile → ℚ) (files : List UFile) (idx : ℕ)
    (item : AudioOutputSpec) : FileCtx :=
  let uf := itemFile files item
  ⟨uf, extLower uf.originalname, detectAudioFormat uf.buffer, idx,
    sanitizeName (nameNoExt uf.originalname), dur uf⟩

/-- The contexts a fully successful probing loop produces, one per item. -/
def mkFileCtxs (dur : UFile → ℚ) (files : List UFile) :
    List AudioOutputSpec → ℕ → List FileCtx
  | [], _ => []
  | item :: rest, idx =>
    mkFileCtx dur files idx item :: mkFileCtxs dur files rest (idx + 1)

/-- The extension gate of the probing loop passes for this item: its file's
extension is empty or in the allowlist. -/
def extCheckOk (files : List UFile) (item : AudioOutputSpec) : Bool :=
  extLower (itemFile files item).originalname == "" ||
    validateAudioExtension (extLower (itemFile files item).originalname)

/-- Resolve a variant's sample count: explicit `samples` wins, otherwise
`Math.round(durationSeconds / 60 * samplesPerMinute)` with
`samplesPerMinute` defaulting to 120. -/
def resolveSamples (v : AudioVariantSpec) (durationSeconds : ℚ) : ℤ :=
  v.samples.getD (jsRound (durationSeconds / 60 * ((v.samplesPerMinute.getD 120 : ℤ) : ℚ)))

/-- The archive file name of one audio variant:
`variant.name || `<baseName>_<samples>.json``, sanitized (JS `||` also
replaces an empty-string name by the default). -/
def variantFileName (baseName : String) (samples : ℤ) (v : AudioVariantSpec) : String :=
  let defaultName := baseName ++ "_" ++ toString samples ++ ".json"
  sanitizeName (match v.name with
    | some n => if n = "" then defaultName else n
    | none => defaultName)

/-- The zip entry path of one audio variant. -/
def audioEntryPath (baseName : String) (samples : ℤ) (v : AudioVariantSpec) : String :=
  "peaks/" ++ baseName ++ "/" ++ variantFileName baseName samples v

/-- The entry paths one manifest item contributes to the archive, in
variant order. -/
def audioItemEntries (dur : UFile → ℚ) (files : List UFile)
    (item : AudioOutputSpec) : List String :=
  item.variants.map (fun v =>
    audioEntryPath (sanitizeName (nameNoExt (itemFile files item).originalname))
      (resolveSamples v (dur (itemFile files item))) v)

/-- Mutable state of the streaming archive: entry names appended so far,
and temp paths already deleted. -/
structure ArchSt where
  entries : List String
  deleted : List ℕ
deriving DecidableEq, Repr

/-- Outcome of the per-file variant loop. -/
inductive VarOut where
  /-- every variant archived -/
  | done (st : ArchSt)
  /-- out-of-range sample count: the handler deletes this file's temp and
  responds 400 -/
  | badSamples (st : ArchSt)
  /-- peak extraction rejected (its temp file was already deleted) and the
  error propagates to the handler's `catch` -/
  | thrown (st : ArchSt)
deriving DecidableEq, Repr

/-- The inner variant loop (audio.ts lines 450-482): resolve the sample
count, 400 the whole batch when it is out of `[1,10000]` (deleting only the
current context's temp file), otherwise extract peaks — which can only fail
here if the temp file is gone — and append the entry. -/
def processVariants (ctx : FileCtx) :
    List AudioVariantSpec → ArchSt → VarOut
  | [], st => .done st
  | v :: rest, st =>
    let samples := resolveSamples v ctx.durationSeconds
    if samples ≤ 0 || 10000 < samples then
      .badSamples ⟨st.entries, st.deleted ++ [ctx.tempPath]⟩
    else if st.deleted.contains ctx.tempPath then
      .thrown st
    else
      processVariants ctx rest
        ⟨st.entries ++ [audioEntryPath ctx.baseName samples v], st.deleted⟩

/-- Outcome of the outer item loop. -/
inductive ProcOut where
  | ok (st : ArchSt)
  | badSamples (file : String) (st : ArchSt)
  | thrown (st : ArchSt)
deriving DecidableEq, Repr

/-- The outer item loop (audio.ts lines 436-489): find the context by
original name (`fileContexts.find`, first match), run the variant loop,
then delete that context's temp file. -/
def processItems (ctxs : List FileCtx) :
    List AudioOutputSpec → ArchSt → ProcOut
  | [], st => .ok st
  | item :: rest, st =>
    match ctxs.find? (fun c => c.inputFile.originalname == item.file) with
    | none => processItems ctxs rest st
    | some ctx =>
      match processVariants ctx item.variants st with
      | .done st' => processItems ctxs rest ⟨st'.entries, st'.deleted ++ [ctx.tempPath]⟩
      | .badSamples st' => .badSamples ctx.inputFile.originalname st'
      | .thrown st' => .thrown st'

/-- Observable outcome of one batch request. -/
structure BatchResult where
  status : ℕ
  errorMsg : Option String
  zipHeaders : Bool
  entries : List String
  tempsCreated : List ℕ
  tempsDeleted : List ℕ
deriving DecidableEq, Repr

/-- `POST /audio/peaks/batch` (audio.ts lines 304-513) from the parsed
manifest on: the validation gates in source order, the probing loop, the
zip headers, `manifest.json` and the processing loop.

Streaming semantics: `archive.append` schedules its write to the piped
response on the event loop, so the first `await` suspension after
`archive.pipe(res)` flushes the pending entries and sets `headersSent`.
Every processed manifest item suspends at least once (`await
cleanupTempFile` even with no variants), hence:

* on the out-of-range-samples path, the `await cleanupTempFile` that
  precedes `res.status(400).json` has already flushed the manifest entry,
  so that call throws `ERR_HTTP_HEADERS_SENT` into the `catch` block
  (lines 499-511), which deletes every context's temp file; the recorded
  400/message is the handler's attempted response, delivered only if
  nothing had flushed (spec §4.3's mid-stream caveat);
* on the success path with a debug level requested, the debug branch's
  `res.set('X-Processing-Time-Ms', …)` (line 493) throws for the same
  reason whenever at least one item was processed — `debug.json` is never
  appended, the archive is not finalized, the `catch` deletes all temps
  (already-deleted ones are swallowed no-ops) and its 500 JSON is
  suppressed by the `headersSent` guard, so the client keeps the streamed
  200; only an empty manifest (no items, so no suspension since `pipe`)
  lets the debug entry through.

On the `thrown` path (peak extraction rejecting because its temp file is
gone — only reachable after an earlier item streamed) the recorded
500/message is likewise the handler's logged failure; the response JSON
itself is suppressed by the same guard. -/
def audioPeaksBatch (cfg : EnvCfg) (dur : UFile → ℚ) (files : List UFile)
    (outputs : List AudioOutputSpec) (debug : Option DebugLevel) : BatchResult :=
  if files.length = 0 then
    ⟨400, some "No audio files provided", false, [], [], []⟩
  else if cfg.MAX_AUDIO_BATCH_FILES < files.length then
    ⟨400, some ("Too many files. Max " ++ toString cfg.MAX_AUDIO_BATCH_FILES),
      false, [], [], []⟩
  else
    match outputs.find? (fun item =>
        cfg.MAX_AUDIO_VARIANTS_PER_FILE < item.variants.length) with
    | some item =>
      ⟨400, some ("Too many variants for " ++ item.file ++ ". Max " ++
        toString cfg.MAX_AUDIO_VARIANTS_PER_FILE), false, [], [], []⟩
    | none =>
      match outputs.find? (fun item => !fileMapHas files item.file) with
      | some item =>
        ⟨400, some ("Manifest references missing file: " ++ item.file),
          false, [], [], []⟩
      | none =>
        match probeLoop dur files outputs 0 [] with
        | .error (msg, ctxs) =>
          ⟨400, some msg, false, [], ctxs.map (·.tempPath), []⟩
        | .ok ctxs =>
          match processItems ctxs outputs ⟨["manifest.json"], []⟩ with
          | .ok st =>
            match debug with
            | none => ⟨200, none, true, st.entries, ctxs.map (·.tempPath), st.deleted⟩
            | some _ =>
              if outputs.isEmpty then
                ⟨200, none, true, st.entries ++ ["debug.json"],
                  ctxs.map (·.tempPath), st.deleted⟩
              else
                ⟨200, none, true, st.entries, ctxs.map (·.tempPath),
                  st.deleted ++ ctxs.map (·.tempPath)⟩
          | .badSamples nm st =>
            ⟨400, some ("Invalid samples configuration for " ++ nm), true,
              st.entries, ctxs.map (·.tempPath),
              st.deleted ++ ctxs.map (·.tempPath)⟩
          | .thrown st =>
            ⟨500, some "Failed to process audio batch", true, st.entries,
              ctxs.map (·.tempPath), st.deleted ++ ctxs.map (·.tempPath)⟩

/-- multer's `LIMIT_UNEXPECTED_FILE` message: aborting `upload.array(field,
maxCount)` / `upload.fields([{…, maxCount}])` on a file past `maxCount`
raises `MulterError('LIMIT_UNEXPECTED_FILE')`, whose message is
`Unexpected field`. -/
def multerLimitMsg : String := "Unexpected field"

/-- The full audio batch route: the multer middleware front-runs the
handler — more than `maxCount` files make multer error out, and
`globalErrorHandler` (errorHandler.ts) maps any non-size `MulterError` to
400 `Upload error: <message>` — otherwise the handler runs. -/
def audioPeaksBatchRoute (cfg : EnvCfg) (dur : UFile → ℚ) (files : List UFile)
    (outputs : List AudioOutputSpec) (debug : Option DebugLevel) : BatchResult :=
  if cfg.MAX_AUDIO_BATCH_FILES < files.length then
    ⟨400, some ("Upload error: " ++ multerLimitMsg), false, [], [], []⟩
  else audioPeaksBatch cfg dur files outputs debug

/-! ## Image batch (image batch route, lines 260-428) -/

/-- An image `VariantSpec` after schema validation. -/
structure ImageVariantSpec where
  format : String
  width : Option ℕ := none
  height : Option ℕ := none
  fit : String := "cover"
  name : Option String := none
deriving DecidableEq, Repr

/-- An image `OutputSpec` after schema validation. -/
structure ImageOutputSpec where
  file : String
  variants : List ImageVariantSpec
deriving DecidableEq, Repr

/-- The archive file name of one image variant: `variant.name ||
`<baseName>_<width-or-auto>x<height-or-auto>_<format>.<format>``,
sanitized (JS `||` treats `0` and the empty string as absent). -/
def imageVariantFileName (baseName : String) (v : ImageVariantSpec) : String :=
  let wStr := match v.width with
    | some w => if w = 0 then "auto" else toString w
    | none => "auto"
  let hStr := match v.height with
    | some h => if h = 0 then "auto" else toString h
    | none => "auto"
  let defaultName :=
    baseName ++ "_" ++ wStr ++ "x" ++ hStr ++ "_" ++ v.format ++ "." ++ v.format
  sanitizeName (match v.name with
    | some n => if n = "" then defaultName else n
    | none => defaultName)

/-- The zip entry path of one image variant. -/
def imageEntryPath (baseName : String) (v : ImageVariantSpec) : String :=
  "images/" ++ baseName ++ "/" ++ imageVariantFileName baseName v

/-- The entry paths one image manifest item contributes, in variant order. -/
def imageItemEntries (files : List UFile) (item : ImageOutputSpec) : List String :=
  item.variants.map (imageEntryPath (sanitizeName (nameNoExt
    (((fileMapGet files item.file).getD default).originalname))))

/-- `POST /image/batch` from the parsed manifest on: the same gate order as
the audio batch, then the conversion loop, which has no temp files and no
early exit — with the sharp transform modelled as always succeeding it
appends exactly one entry per variant, in manifest order and variant
order.

The image loop only suspends at `await pipeline.toBuffer()`, i.e. once per
variant. So when a debug level was requested and at least one variant was
processed, the pending archive writes have flushed during that `await`
and the debug branch's `res.set('X-Processing-Time-Ms', …)`
(part_002 line 411) throws `ERR_HTTP_HEADERS_SENT` into the `catch`:
`debug.json` is never appended and the archive is not finalized (the
client keeps the streamed 200, the catch's 500 JSON being suppressed by
its `headersSent` guard). Only a manifest whose items all have zero
variants (no suspension since `pipe`) lets the debug entry through. -/
def imageBatch (cfg : EnvCfg) (files : List UFile)
    (outputs : List ImageOutputSpec) (debug : Option DebugLevel) : BatchResult :=
  if files.length = 0 then
    ⟨400, some "No image files provided", false, [], [], []⟩
  else if cfg.MAX_IMAGE_BATCH_FILES < files.length then
    ⟨400, some ("Too many files. Max " ++ toString cfg.MAX_IMAGE_BATCH_FILES),
      false, [], [], []⟩
  else
    match outputs.find? (fun item =>
        cfg.MAX_IMAGE_VARIANTS_PER_FILE < item.variants.length) with
    | some item =>
      ⟨400, some ("Too many variants for " ++ item.file ++ ". Max " ++
        toString cfg.MAX_IMAGE_VARIANTS_PER_FILE), false, [], [], []⟩
    | none =>
      match outputs.find? (fun item => !fileMapHas files item.file) with
      | some item =>
        ⟨400, some ("Manifest references missing file: " ++ item.file),
          false, [], [], []⟩
      | none =>
        match debug with
        | none =>
          ⟨200, none, true,
            "manifest.json" :: outputs.flatMap (imageItemEntries files),
            [], []⟩
        | some _ =>
          if outputs.all (fun item => item.variants.isEmpty) then
            ⟨200, none, true,
              "manifest.json" :: (outputs.flatMap (imageItemEntries files) ++
                ["debug.json"]),
              [], []⟩
          else
            ⟨200, none, true,
              "manifest.json" :: outputs.flatMap (imageItemEntries files),
              [], []⟩

/-- The full image batch route, multer `fields` limit included. -/
def imageBatchRoute (cfg : EnvCfg) (files : List UFile)
    (outputs : List ImageOutputSpec) (debug : Option DebugLevel) : BatchResult :=
  if cfg.MAX_IMAGE_BATCH_FILES < files.length then
    ⟨400, some ("Upload error: " ++ multerLimitMsg), false, [], [], []⟩
  else imageBatch cfg files outputs debug

/-- The context the processing loop finds for a manifest item
(`fileContexts.find(c => c.inputFile.originalname === item.file)`). -/
def ctxFor (dur : UFile → ℚ) (files : List UFile)
    (outputs : List AudioOutputSpec) (item : AudioOutputSpec) : FileCtx :=
  ((mkFileCtxs dur files outputs 0).find?
    (fun c => c.inputFile.originalname == item.file)).getD default

/-- The per-variant legality condition the batch handler checks lazily:
the resolved sample count lies in `[1, 10000]`. -/
def variantInRange (v : AudioVariantSpec) (d : ℚ) : Prop :=
  0 < resolveSamples v d ∧ resolveSamples v d ≤ 10000

/-- `needle` occurs verbatim inside `hay` (used to state that an error
message names a filename). -/
def mentions (hay needle : String) : Prop :=
  needle.data <:+: hay.data

/-! # Theorems -/

/-! ## Resampling -/

/-- Claim C5: `resamplePeaks` is the identity (element for element, with no
rounding) when the input length equals the target, and maps the empty list
to the empty list for every target. -/
theorem C5_resample_identity_and_empty (peaks : List ℚ) (n : ℕ) :
    resamplePeaks peaks peaks.length = peaks ∧ resamplePeaks [] n = [] := by
  constructor
  · cases peaks <;> simp [resamplePeaks]
  · simp [resamplePeaks]

/-- Unfolding one row of the signature table. -/
theorem signatureTable_step (b : List Nat) (test : List Nat → Bool)
    (fmt : AudioFormat) (rest : List ((List Nat → Bool) × AudioFormat)) :
    (((test, fmt) :: rest).findSome?
        (fun row => if row.1 b then some row.2 else none)) =
      if test b then some fmt
      else rest.findSome? (fun row => if row.1 b then some row.2 else none) := by
  cases h : test b <;> simp [List.findSome?_cons, h]

/-- Claim C6: `detectAudioFormat` is pure in the byte buffer and agrees
everywhere with the claim's fixed-offset signature table read top to
bottom (aac's ADTS sync before the generic MP3 sync); the three sample
buffers classify as wav, aac and mp3, and every buffer shorter than 4
bytes is unknown. -/
theorem C6_detect_format_table :
    (∀ b, detectAudioFormat b = detectAudioFormatSpec b) ∧
    detectAudioFormat [0x52, 0x49, 0x46, 0x46, 0, 0, 0, 0,
      0x57, 0x41, 0x56, 0x45] = some .wav ∧
    detectAudioFormat [0xff, 0xf1, 0, 0] = some .aac ∧
    detectAudioFormat [0xff, 0xe3, 0x90, 0] = some .mp3 ∧
    (∀ b, b.length < 4 → detectAudioFormat b = none) := by
  refine ⟨?_, by decide, by decide, by decide, ?_⟩
  · intro b
    simp only [detectAudioFormatSpec, signatureTable, signatureTable_step]
    rfl
  · intro b hb
    simp [detectAudioFormat, hb]

/-- Witness for C6: the table equivalence and the short-buffer case applied
at concrete buffers. -/
theorem C6_detect_format_table_witness :
    detectAudioFormat [0x4f, 0x67, 0x67, 0x53] =
      detectAudioFormatSpec [0x4f, 0x67, 0x67, 0x53] ∧
    detectAudioFormat [0, 0] = none :=
  ⟨C6_detect_format_table.1 _, C6_detect_format_table.2.2.2.2 [0, 0] (by decide)⟩

/-- `Int.toNat` on numerals, in the shape `simp` matches. -/
theorem toNat_numeral (n : ℕ) [Nat.AtLeastTwo n] :
    (Int.toNat (no_index (OfNat.ofNat n))) = OfNat.ofNat n := rfl

/-- Folding `max` from `0` equals folding from the head when every element
is nonnegative (the handler's `maxPeak` accumulator starts at `0`). -/
theorem foldl_max_zero_eq (l : List ℚ) (h : ∀ x ∈ l, 0 ≤ x) :
    l.foldl max 0 = l.foldl max (l.headD 0) := by
  cases l with
  | nil => rfl
  | cons a t =>
    simp only [List.headD_cons, List.foldl_cons]
    rw [max_eq_right (h a (List.mem_cons_self a t)), max_self]

/-- Claim C4, counterexample: on the one-element list `[-1]` with target 2,
`resamplePeaks` returns `[-1, 0]` — the second output is the `0` seed of
the pooling loop, not the segment maximum `-1` — so the claimed per-index
formula, which yields `[-1, -1]`, does not hold for arbitrary peak lists. -/
theorem C4_counterexample :
    resamplePeaks [-1] 2 = [-1, 0] ∧ resamplePeaksClaim [-1] 2 = [-1, -1] ∧
    resamplePeaks [-1] 2 ≠ resamplePeaksClaim [-1] 2 := by
  have h1 : resamplePeaks [-1] 2 = [-1, 0] := by
    norm_num [resamplePeaks, resampleStart, resampleStop, poolMax, round3,
      jsRound, List.range_succ]
  have h2 : resamplePeaksClaim [-1] 2 = [-1, -1] := by
    norm_num [resamplePeaksClaim, resampleStart, resampleStop, segMax, round3,
      jsRound, List.range_succ]
  refine ⟨h1, h2, ?_⟩
  rw [h1, h2]
  intro h
  simp only [List.cons.injEq] at h
  exact absurd h.2.1 (by norm_num)

/-- Claim C4 (amended with nonnegative peak values): for a nonempty list of
nonnegative peaks whose length differs from the target `t ≥ 1`,
`resamplePeaks` returns exactly `t` values satisfying the claimed
max-pooling formula, and the two concrete examples evaluate as claimed. -/
theorem C4_resample_pooling (peaks : List ℚ) (t : ℕ) (h0 : peaks ≠ [])
    (_ht1 : 1 ≤ t) (ht : peaks.length ≠ t) (hpos : ∀ x ∈ peaks, 0 ≤ x) :
    (resamplePeaks peaks t).length = t ∧
    resamplePeaks peaks t = resamplePeaksClaim peaks t ∧
    resamplePeaks [1/10, 2/10, 3/10, 4/10, 5/10, 6/10, 7/10, 8/10, 9/10, 1] 5 =
      [2/10, 4/10, 6/10, 8/10, 1] ∧
    resamplePeaks [12345/100000, 67891/100000, 11111/100000, 99999/100000] 2 =
      [679/1000, 1] := by
  have hl : peaks.length ≠ 0 := by simpa using h0
  refine ⟨?_, ?_, ?_, ?_⟩
  · simp [resamplePeaks, h0, ht]
  · simp only [resamplePeaks, resamplePeaksClaim, if_neg hl, if_neg ht]
    apply List.map_congr_left
    intro i _
    simp only [poolMax, segMax]
    rw [foldl_max_zero_eq]
    intro x hx
    exact hpos x (List.drop_subset _ _ (List.take_subset _ _ hx))
  · norm_num [resamplePeaks, resampleStart, resampleStop, poolMax, round3,
      jsRound, List.range_succ, toNat_numeral, List.take_succ_cons,
      List.drop_succ_cons, max_def]
  · norm_num [resamplePeaks, resampleStart, resampleStop, poolMax, round3,
      jsRound, List.range_succ, toNat_numeral, List.take_succ_cons,
      List.drop_succ_cons, max_def]

/-- Witness for C4: the amended theorem applied to the claim's first
example list. -/
theorem C4_resample_pooling_witness :
    resamplePeaks [1/10, 2/10, 3/10, 4/10, 5/10, 6/10, 7/10, 8/10, 9/10, 1] 5 =
      resamplePeaksClaim [1/10, 2/10, 3/10, 4/10, 5/10, 6/10, 7/10, 8/10, 9/10, 1] 5 :=
  (C4_resample_pooling
    [1/10, 2/10, 3/10, 4/10, 5/10, 6/10, 7/10, 8/10, 9/10, 1] 5
    (by simp) (by norm_num) (by simp) (by norm_num)).2.1

/-- The segment start index stays below the source length for every target
index `i < t` (nonempty source, `t ≥ 1`). -/
theorem resampleStart_lt (len t i : ℕ) (hlen : 0 < len) (ht : 1 ≤ t)
    (hi : i < t) : resampleStart len t i < len := by
  have ht0 : (0 : ℚ) < (t : ℚ) := by exact_mod_cast ht
  have hratio : (0 : ℚ) < (len : ℚ) / (t : ℚ) := by positivity
  have hmul : (i : ℚ) * ((len : ℚ) / (t : ℚ)) < (len : ℚ) := by
    have hit : (i : ℚ) < (t : ℚ) := by exact_mod_cast hi
    calc (i : ℚ) * ((len : ℚ) / (t : ℚ))
        < (t : ℚ) * ((len : ℚ) / (t : ℚ)) := mul_lt_mul_of_pos_right hit hratio
      _ = (len : ℚ) := by field_simp
  have hfloor : ⌊(i : ℚ) * ((len : ℚ) / (t : ℚ))⌋ < (len : ℤ) := by
    rw [Int.floor_lt]
    exact_mod_cast hmul
  unfold resampleStart
  rw [Int.toNat_lt' hlen.ne']
  exact hfloor

/-- Claim C10: in `resamplePeaks`, for a nonempty source of length `L ≠ t`,
target `t ≥ 1` and output index `i < t`, the segment start
`⌊i·(L/t)⌋` is strictly below `L`; hence the fallback branch that repeats
the last source value is unreachable (removing it does not change the
function on such inputs) and the reads `peaks[start]` and `peaks[L-1]` are
in bounds. -/
theorem C10_resample_start_in_bounds (peaks : List ℚ) (t i : ℕ)
    (h0 : peaks ≠ []) (ht : 1 ≤ t) (hne : peaks.length ≠ t) (hi : i < t) :
    resampleStart peaks.length t i < peaks.length ∧
    peaks.length - 1 < peaks.length ∧
    resamplePeaks peaks t = resamplePeaksNoFb peaks t := by
  have hlen : 0 < peaks.length := List.length_pos.mpr h0
  refine ⟨resampleStart_lt _ _ _ hlen ht hi, Nat.sub_lt hlen Nat.one_pos, ?_⟩
  have hl : peaks.length ≠ 0 := hlen.ne'
  simp only [resamplePeaks, resamplePeaksNoFb, if_neg hl, if_neg hne]
  apply List.map_congr_left
  intro j hj
  have hjlt : j < t := List.mem_range.mp hj
  have hstart := resampleStart_lt peaks.length t j hlen ht hjlt
  rw [if_neg (by omega)]

/-- Witness for C10: the bound and the fallback-free agreement at a
concrete input. -/
theorem C10_resample_start_in_bounds_witness :
    resampleStart 1 2 1 < 1 ∧ resamplePeaks [-1] 2 = resamplePeaksNoFb [-1] 2 := by
  have h := C10_resample_start_in_bounds [-1] 2 1 (by simp) (by norm_num)
    (by simp) (by norm_num)
  exact ⟨by simpa using h.1, h.2.2⟩

/-! ## Batch handler lemmas -/

/-- Every tag the sniffer can return is in the supported-format allowlist,
so the detected-format rejection branch never fires. -/
theorem fmt_str_supported (fmt : AudioFormat) :
    validateAudioExtension fmt.str = true := by
  cases fmt <;> rfl

/-- A present map key is found, and the found file carries that exact
original name. -/
theorem fileMapGet_name (files : List UFile) (nm : String)
    (h : fileMapHas files nm = true) :
    ∃ uf, fileMapGet files nm = some uf ∧ uf.originalname = nm := by
  unfold fileMapHas at h
  obtain ⟨f, hf, hname⟩ := List.any_eq_true.mp h
  cases hfind : files.reverse.find? (fun f => f.originalname == nm) with
  | none =>
    exfalso
    have := List.find?_eq_none.mp hfind f (List.mem_reverse.mpr hf)
    simp_all
  | some uf =>
    refine ⟨uf, by simpa [fileMapGet] using hfind, ?_⟩
    have := List.find?_some hfind
    simpa using this

/-- After the missing-file gate, the file a manifest item resolves to has
exactly the item's `file` as its original name. -/
theorem itemFile_name (files : List UFile) (item : AudioOutputSpec)
    (h : fileMapHas files item.file = true) :
    (itemFile files item).originalname = item.file := by
  obtain ⟨uf, hget, hname⟩ := fileMapGet_name files item.file h
  simp [itemFile, hget, hname]

/-- A probing loop whose extension gate passes for every item succeeds and
returns exactly the contexts `mkFileCtxs` describes, appended to the
accumulator. -/
theorem probeLoop_eq_ok (dur : UFile → ℚ) (files : List UFile) :
    ∀ (items : List AudioOutputSpec) (idx : ℕ) (acc : List FileCtx),
    (∀ item ∈ items, extCheckOk files item = true) →
    probeLoop dur files items idx acc =
      .ok (acc ++ mkFileCtxs dur files items idx) := by
  intro items
  induction items with
  | nil => intro idx acc _; simp [probeLoop, mkFileCtxs]
  | cons item rest ih =>
    intro idx acc h
    have hext := h item (List.mem_cons_self item rest)
    have hgate : (extLower (itemFile files item).originalname ≠ "" &&
        !validateAudioExtension (extLower (itemFile files item).originalname)) = false := by
      unfold extCheckOk at hext
      cases hb : (extLower (itemFile files item).originalname == "") with
      | true =>
        have hb' : extLower (itemFile files item).originalname = "" := by
          simpa using hb
        simp [hb']
      | false =>
        rw [hb] at hext
        simp only [Bool.false_or] at hext
        simp [hext]
    have hrest : ∀ it ∈ rest, extCheckOk files it = true :=
      fun it hit => h it (List.mem_cons_of_mem item hit)
    simp only [probeLoop, mkFileCtxs]
    rw [hgate]
    simp only [Bool.false_eq_true, if_false]
    cases hdet : detectAudioFormat (itemFile files item).buffer with
    | some fmt =>
      have hih := ih (idx + 1) (acc ++ [mkFileCtx dur files idx item]) hrest
      simp only [mkFileCtx, hdet] at hih
      simp only [fmt_str_supported, Bool.not_true, Bool.false_eq_true, if_false,
        hih, List.append_assoc, List.singleton_append, mkFileCtx, hdet]
    | none =>
      have hih := ih (idx + 1) (acc ++ [mkFileCtx dur files idx item]) hrest
      simp only [mkFileCtx, hdet] at hih
      simp only [hih, List.append_assoc, List.singleton_append, mkFileCtx, hdet]

/-- The temp paths of the probing loop's contexts are consecutive indices. -/
theorem mkFileCtxs_map_tempPath (dur : UFile → ℚ) (files : List UFile) :
    ∀ (items : List AudioOutputSpec) (idx : ℕ),
    (mkFileCtxs dur files items idx).map (·.tempPath) =
      List.range' idx items.length := by
  intro items
  induction items with
  | nil => intro idx; simp [mkFileCtxs]
  | cons item rest ih =>
    intro idx
    simp [mkFileCtxs, mkFileCtx, List.range'_succ, ih (idx + 1)]

/-- Each context produced by the probing loop is `mkFileCtx` of some item
of the manifest. -/
theorem mem_mkFileCtxs (dur : UFile → ℚ) (files : List UFile) :
    ∀ (items : List AudioOutputSpec) (idx : ℕ) (c : FileCtx),
    c ∈ mkFileCtxs dur files items idx →
    ∃ j item, item ∈ items ∧ c = mkFileCtx dur files j item := by
  intro items
  induction items with
  | nil => intro idx c hc; simp [mkFileCtxs] at hc
  | cons item rest ih =>
    intro idx c hc
    simp only [mkFileCtxs, List.mem_cons] at hc
    rcases hc with hc | hc
    · exact ⟨idx, item, List.mem_cons_self item rest, hc⟩
    · obtain ⟨j, it, hmem, heq⟩ := ih (idx + 1) c hc
      exact ⟨j, it, List.mem_cons_of_mem item hmem, heq⟩

/-- Conversely, every manifest item's context is among the probing loop's
contexts. -/
theorem mkFileCtx_mem (dur : UFile → ℚ) (files : List UFile) :
    ∀ (items : List AudioOutputSpec) (idx : ℕ) (item : AudioOutputSpec),
    item ∈ items →
    ∃ j, mkFileCtx dur files j item ∈ mkFileCtxs dur files items idx := by
  intro items
  induction items with
  | nil => intro idx item h; simp at h
  | cons hd rest ih =>
    intro idx item h
    rcases List.mem_cons.mp h with h | h
    · exact ⟨idx, by simp [mkFileCtxs, h]⟩
    · obtain ⟨j, hj⟩ := ih (idx + 1) item h
      exact ⟨j, by simp [mkFileCtxs, Or.inr hj]⟩

/-- What `fileContexts.find` returns for a referenced manifest item: a
context of the probing loop whose input file, duration and base name are
those of the item's uploaded file. -/
theorem ctxFor_spec (dur : UFile → ℚ) (files : List UFile)
    (outputs : List AudioOutputSpec) (item : AudioOutputSpec)
    (hmem : item ∈ outputs)
    (hhas : ∀ it ∈ outputs, fileMapHas files it.file = true) :
    (mkFileCtxs dur files outputs 0).find?
        (fun c => c.inputFile.originalname == item.file) =
      some (ctxFor dur files outputs item) ∧
    (ctxFor dur files outputs item).inputFile = itemFile files item ∧
    (ctxFor dur files outputs item).durationSeconds = dur (itemFile files item) ∧
    (ctxFor dur files outputs item).baseName =
      sanitizeName (nameNoExt (itemFile files item).originalname) ∧
    (ctxFor dur files outputs item).inputFile.originalname = item.file ∧
    (ctxFor dur files outputs item) ∈ mkFileCtxs dur files outputs 0 := by
  cases hfind : (mkFileCtxs dur files outputs 0).find?
      (fun c => c.inputFile.originalname == item.file) with
  | none =>
    exfalso
    obtain ⟨j, hjmem⟩ := mkFileCtx_mem dur files outputs 0 item hmem
    have hname : (mkFileCtx dur files j item).inputFile.originalname = item.file := by
      simp [mkFileCtx, itemFile_name files item (hhas item hmem)]
    have := List.find?_eq_none.mp hfind _ hjmem
    simp [hname] at this
  | some c =>
    have hcf : ctxFor dur files outputs item = c := by
      simp [ctxFor, hfind]
    have hcmem : c ∈ mkFileCtxs dur files outputs 0 :=
      List.mem_of_find?_eq_some hfind
    have hpname : c.inputFile.originalname = item.file := by
      have := List.find?_some hfind
      simpa using this
    obtain ⟨j, item', hmem', hc⟩ := mem_mkFileCtxs dur files outputs 0 c hcmem
    have hnm' : (itemFile files item').originalname = item'.file :=
      itemFile_name files item' (hhas item' hmem')
    have hfiles_eq : item'.file = item.file := by
      rw [hc] at hpname
      simpa [mkFileCtx, hnm'] using hpname
    have hIF : itemFile files item' = itemFile files item := by
      simp [itemFile, fileMapGet, hfiles_eq]
    have hnm : (itemFile files item).originalname = item.file :=
      itemFile_name files item (hhas item hmem)
    rw [hcf, hc]
    refine ⟨rfl, ?_, ?_, ?_, ?_, hc ▸ hcmem⟩ <;>
      simp [mkFileCtx, hIF, hnm', hfiles_eq, hnm]

/-- Distinct referenced manifest files are served by contexts with
distinct temp paths. -/
theorem ctxFor_temp_ne (dur : UFile → ℚ) (files : List UFile)
    (outputs : List AudioOutputSpec) (a b : AudioOutputSpec)
    (ha : a ∈ outputs) (hb : b ∈ outputs)
    (hhas : ∀ it ∈ outputs, fileMapHas files it.file = true)
    (hne : a.file ≠ b.file) :
    (ctxFor dur files outputs a).tempPath ≠ (ctxFor dur files outputs b).tempPath := by
  have sa := ctxFor_spec dur files outputs a ha hhas
  have sb := ctxFor_spec dur files outputs b hb hhas
  intro heq
  have hmapnd : ((mkFileCtxs dur files outputs 0).map (·.tempPath)).Nodup := by
    rw [mkFileCtxs_map_tempPath]
    exact List.nodup_range' _ _
  have hceq : ctxFor dur files outputs a = ctxFor dur files outputs b :=
    List.inj_on_of_nodup_map hmapnd sa.2.2.2.2.2 sb.2.2.2.2.2 heq
  apply hne
  rw [← sa.2.2.2.2.1, ← sb.2.2.2.2.1, hceq]

/-- A variant loop whose resolved sample counts are all in range and whose
temp file is still live archives one entry per variant, in order, and
deletes nothing. -/
theorem processVariants_done (ctx : FileCtx) :
    ∀ (vars : List AudioVariantSpec) (st : ArchSt),
    (∀ v ∈ vars, variantInRange v ctx.durationSeconds) →
    ctx.tempPath ∉ st.deleted →
    processVariants ctx vars st =
      .done ⟨st.entries ++ vars.map (fun v =>
        audioEntryPath ctx.baseName (resolveSamples v ctx.durationSeconds) v),
        st.deleted⟩ := by
  intro vars
  induction vars with
  | nil => intro st _ _; simp [processVariants]
  | cons v rest ih =>
    intro st hin hlive
    obtain ⟨hpos, hle⟩ := hin v (List.mem_cons_self v rest)
    have hc1 : (decide (resolveSamples v ctx.durationSeconds ≤ 0) ||
        decide (10000 < resolveSamples v ctx.durationSeconds)) = false := by
      simp only [Bool.or_eq_false_iff, decide_eq_false_iff_not]
      constructor <;> omega
    have hc2 : st.deleted.contains ctx.tempPath = false := by
      simpa using hlive
    simp only [processVariants, hc1, hc2, Bool.false_eq_true, if_false]
    rw [ih ⟨st.entries ++ [audioEntryPath ctx.baseName
        (resolveSamples v ctx.durationSeconds) v], st.deleted⟩
      (fun w hw => hin w (List.mem_cons_of_mem v hw)) hlive]
    simp [List.append_assoc]

/-- A variant loop that reaches an out-of-range variant after in-range ones
archives the earlier variants' entries, then deletes this file's temp and
reports the bad sample configuration. -/
theorem processVariants_bad (ctx : FileCtx) :
    ∀ (pre : List AudioVariantSpec) (bad : AudioVariantSpec)
      (post : List AudioVariantSpec) (st : ArchSt),
    (∀ v ∈ pre, variantInRange v ctx.durationSeconds) →
    (resolveSamples bad ctx.durationSeconds ≤ 0 ∨
      10000 < resolveSamples bad ctx.durationSeconds) →
    ctx.tempPath ∉ st.deleted →
    processVariants ctx (pre ++ bad :: post) st =
      .badSamples ⟨st.entries ++ pre.map (fun v =>
        audioEntryPath ctx.baseName (resolveSamples v ctx.durationSeconds) v),
        st.deleted ++ [ctx.tempPath]⟩ := by
  intro pre
  induction pre with
  | nil =>
    intro bad post st _ hbad hlive
    have hc1 : (decide (resolveSamples bad ctx.durationSeconds ≤ 0) ||
        decide (10000 < resolveSamples bad ctx.durationSeconds)) = true := by
      rcases hbad with h | h <;> simp [h]
    simp [processVariants, hc1]
  | cons v rest ih =>
    intro bad post st hin hbad hlive
    obtain ⟨hpos, hle⟩ := hin v (List.mem_cons_self v rest)
    have hc1 : (decide (resolveSamples v ctx.durationSeconds ≤ 0) ||
        decide (10000 < resolveSamples v ctx.durationSeconds)) = false := by
      simp only [Bool.or_eq_false_iff, decide_eq_false_iff_not]
      constructor <;> omega
    have hc2 : st.deleted.contains ctx.tempPath = false := by
      simpa using hlive
    simp only [List.cons_append, processVariants, hc1, hc2,
      Bool.false_eq_true, if_false, List.append_eq]
    rw [ih bad post ⟨st.entries ++ [audioEntryPath ctx.baseName
        (resolveSamples v ctx.durationSeconds) v], st.deleted⟩
      (fun w hw => hin w (List.mem_cons_of_mem v hw)) hbad hlive]
    simp [List.append_assoc]

/-- An item loop in which every pending item finds its context, every
resolved sample count is in range, every pending context's temp file is
still live, and pending contexts have pairwise-distinct temp files,
archives one entry per variant of each item (manifest order, variant
order) and deletes each item's temp file after its variants. -/
theorem processItems_run_ok (ctxs : List FileCtx) (g : AudioOutputSpec → FileCtx) :
    ∀ (items : List AudioOutputSpec) (st : ArchSt),
    (∀ item ∈ items, ctxs.find?
        (fun c => c.inputFile.originalname == item.file) = some (g item)) →
    (∀ item ∈ items, ∀ v ∈ item.variants,
        variantInRange v (g item).durationSeconds) →
    (∀ item ∈ items, (g item).tempPath ∉ st.deleted) →
    items.Pairwise (fun a b => (g a).tempPath ≠ (g b).tempPath) →
    processItems ctxs items st = .ok
      ⟨st.entries ++ items.flatMap (fun item => item.variants.map (fun v =>
          audioEntryPath (g item).baseName
            (resolveSamples v (g item).durationSeconds) v)),
        st.deleted ++ items.map (fun item => (g item).tempPath)⟩ := by
  intro items
  induction items with
  | nil => intro st _ _ _ _; simp [processItems]
  | cons item rest ih =>
    intro st hfind hsam hlive hpw
    have hfind0 := hfind item (List.mem_cons_self item rest)
    obtain ⟨hhd, hpw'⟩ := List.pairwise_cons.mp hpw
    simp only [processItems, hfind0]
    rw [processVariants_done (g item) item.variants st
      (hsam item (List.mem_cons_self item rest))
      (hlive item (List.mem_cons_self item rest))]
    dsimp only
    rw [ih ⟨st.entries ++ List.map (fun v => audioEntryPath (g item).baseName
          (resolveSamples v (g item).durationSeconds) v) item.variants,
        st.deleted ++ [(g item).tempPath]⟩
      (fun it hit => hfind it (List.mem_cons_of_mem item hit))
      (fun it hit => hsam it (List.mem_cons_of_mem item hit))
      (fun it hit => by
        simp only [List.mem_append, List.mem_singleton]
        rintro (h | h)
        · exact hlive it (List.mem_cons_of_mem item hit) h
        · exact hhd it hit h.symm)
      hpw']
    simp [List.flatMap_cons, List.append_assoc]

/-- An item loop that reaches an out-of-range variant — after `good` items
processed fully and `pre` variants of the failing item — archives
everything up to that variant, deletes the good items' temps and the
failing item's temp, and reports the bad configuration for the failing
item's file name. -/
theorem processItems_run_bad (ctxs : List FileCtx) (g : AudioOutputSpec → FileCtx)
    (badItem : AudioOutputSpec) (rest : List AudioOutputSpec)
    (pre : List AudioVariantSpec) (bad : AudioVariantSpec)
    (post : List AudioVariantSpec) :
    ∀ (good : List AudioOutputSpec) (st : ArchSt),
    (∀ item ∈ good ++ [badItem], ctxs.find?
        (fun c => c.inputFile.originalname == item.file) = some (g item)) →
    (∀ item ∈ good, ∀ v ∈ item.variants,
        variantInRange v (g item).durationSeconds) →
    (∀ v ∈ pre, variantInRange v (g badItem).durationSeconds) →
    (resolveSamples bad (g badItem).durationSeconds ≤ 0 ∨
      10000 < resolveSamples bad (g badItem).durationSeconds) →
    (∀ item ∈ good ++ [badItem], (g item).tempPath ∉ st.deleted) →
    (good ++ [badItem]).Pairwise (fun a b => (g a).tempPath ≠ (g b).tempPath) →
    badItem.variants = pre ++ bad :: post →
    processItems ctxs (good ++ badItem :: rest) st = .badSamples
      (g badItem).inputFile.originalname
      ⟨st.entries ++ good.flatMap (fun item => item.variants.map (fun v =>
          audioEntryPath (g item).baseName
            (resolveSamples v (g item).durationSeconds) v)) ++
        pre.map (fun v => audioEntryPath (g badItem).baseName
          (resolveSamples v (g badItem).durationSeconds) v),
        st.deleted ++ good.map (fun item => (g item).tempPath) ++
          [(g badItem).tempPath]⟩ := by
  intro good
  induction good with
  | nil =>
    intro st hfind _ hpre hbad hlive _ hvars
    have hfind0 := hfind badItem (by simp)
    simp only [List.nil_append, processItems, hfind0]
    rw [hvars, processVariants_bad (g badItem) pre bad post st hpre hbad
      (hlive badItem (by simp))]
    simp
  | cons item gdrest ih =>
    intro st hfind hsam hpre hbad hlive hpw
    intro hvars
    have hfind0 := hfind item (by simp)
    obtain ⟨hhd, hpw'⟩ := List.pairwise_cons.mp hpw
    simp only [List.cons_append, processItems, hfind0]
    rw [processVariants_done (g item) item.variants st
      (hsam item (List.mem_cons_self item gdrest))
      (hlive item (by simp))]
    dsimp only
    simp only [List.append_eq]
    rw [ih ⟨st.entries ++ List.map (fun v => audioEntryPath (g item).baseName
          (resolveSamples v (g item).durationSeconds) v) item.variants,
        st.deleted ++ [(g item).tempPath]⟩
      (fun it hit => hfind it (List.mem_cons_of_mem item hit))
      (fun it hit => hsam it (List.mem_cons_of_mem item hit))
      hpre hbad
      (fun it hit => by
        simp only [List.mem_append, List.mem_singleton]
        rintro (h | h)
        · exact hlive it (List.mem_cons_of_mem item hit) h
        · exact hhd it hit h.symm)
      hpw' hvars]
    simp [List.flatMap_cons, List.append_assoc]

/-- A string visibly appears at the end of an append. -/
theorem mentions_append (pre nm : String) : mentions (pre ++ nm) nm := by
  unfold mentions
  have hd : (pre ++ nm).data = pre.data ++ nm.data := rfl
  rw [hd]
  exact (List.suffix_append pre.data nm.data).isInfix

/-- Claim C1, counterexample: a batch request whose manifest references the
missing file `missing.wav` but also exceeds the per-file variant cap on an
earlier entry is rejected by the earlier gate, with a message that names
the capped file and not the missing one — so the response does not name
the missing filename as the claim states. -/
theorem C1_counterexample :
    audioPeaksBatchRoute {} (fun _ => (60 : ℚ)) [⟨"a.wav", []⟩]
        [⟨"a.wav", List.replicate 5 ⟨none, none, none⟩⟩, ⟨"missing.wav", []⟩]
        none =
      ⟨400, some "Too many variants for a.wav. Max 4", false, [], [], []⟩ ∧
    ¬ mentions "Too many variants for a.wav. Max 4" "missing.wav" := by
  constructor
  · decide
  · unfold mentions
    decide

/-- Claim C1 (amended with the preceding gates passing): when a batch
request (audio or image) uploads at least one file, stays within the file
and per-file variant caps, and its manifest references a file absent from
the upload set, the endpoint responds 400 naming the first such missing
filename, before any temp file is created, any archive entry is appended,
or the zip response headers are set. -/
theorem C1_missing_file_fail_fast
    (cfg : EnvCfg) (dur : UFile → ℚ) (files : List UFile)
    (outputs : List AudioOutputSpec) (debug : Option DebugLevel)
    (item0 : AudioOutputSpec)
    (ifiles : List UFile) (ioutputs : List ImageOutputSpec)
    (idebug : Option DebugLevel) (iitem0 : ImageOutputSpec)
    (h1 : files.length ≠ 0)
    (h2 : files.length ≤ cfg.MAX_AUDIO_BATCH_FILES)
    (h3 : ∀ item ∈ outputs, item.variants.length ≤ cfg.MAX_AUDIO_VARIANTS_PER_FILE)
    (h4 : outputs.find? (fun item => !fileMapHas files item.file) = some item0)
    (i1 : ifiles.length ≠ 0)
    (i2 : ifiles.length ≤ cfg.MAX_IMAGE_BATCH_FILES)
    (i3 : ∀ item ∈ ioutputs, item.variants.length ≤ cfg.MAX_IMAGE_VARIANTS_PER_FILE)
    (i4 : ioutputs.find? (fun item => !fileMapHas ifiles item.file) = some iitem0) :
    audioPeaksBatchRoute cfg dur files outputs debug =
      ⟨400, some ("Manifest references missing file: " ++ item0.file),
        false, [], [], []⟩ ∧
    mentions ("Manifest references missing file: " ++ item0.file) item0.file ∧
    imageBatchRoute cfg ifiles ioutputs idebug =
      ⟨400, some ("Manifest references missing file: " ++ iitem0.file),
        false, [], [], []⟩ ∧
    mentions ("Manifest references missing file: " ++ iitem0.file) iitem0.file := by
  have hcap : outputs.find? (fun item =>
      decide (cfg.MAX_AUDIO_VARIANTS_PER_FILE < item.variants.length)) = none :=
    List.find?_eq_none.mpr (fun it hit => by
      simpa using Nat.not_lt.mpr (h3 it hit))
  have icap : ioutputs.find? (fun item =>
      decide (cfg.MAX_IMAGE_VARIANTS_PER_FILE < item.variants.length)) = none :=
    List.find?_eq_none.mpr (fun it hit => by
      simpa using Nat.not_lt.mpr (i3 it hit))
  refine ⟨?_, mentions_append _ _, ?_, mentions_append _ _⟩
  · simp only [audioPeaksBatchRoute, audioPeaksBatch,
      if_neg (Nat.not_lt.mpr h2), if_neg h1, hcap, h4]
  · simp only [imageBatchRoute, imageBatch,
      if_neg (Nat.not_lt.mpr i2), if_neg i1, icap, i4]

/-- Witness for C1: the amended theorem at a concrete audio and image
request whose manifests reference `missing.wav` / `missing.png`. -/
theorem C1_missing_file_fail_fast_witness :
    audioPeaksBatchRoute {} (fun _ => (60 : ℚ)) [⟨"a.wav", []⟩]
        [⟨"missing.wav", []⟩] none =
      ⟨400, some ("Manifest references missing file: " ++ "missing.wav"),
        false, [], [], []⟩ ∧
    imageBatchRoute {} [⟨"a.png", []⟩] [⟨"missing.png", ([] : List ImageVariantSpec)⟩]
        none =
      ⟨400, some ("Manifest references missing file: " ++ "missing.png"),
        false, [], [], []⟩ := by
  have h := C1_missing_file_fail_fast {} (fun _ => (60 : ℚ)) [⟨"a.wav", []⟩]
    [⟨"missing.wav", []⟩] none ⟨"missing.wav", []⟩
    [⟨"a.png", []⟩] [⟨"missing.png", []⟩] none ⟨"missing.png", []⟩
    (by decide) (by decide) (by decide) (by decide)
    (by decide) (by decide) (by decide) (by decide)
  exact ⟨h.1, h.2.2.1⟩

/-- Claim C9: for any upload count above the configured maximum, on either
batch route, multer aborts with `LIMIT_UNEXPECTED_FILE` and the error
handler responds 400 `Upload error: Unexpected field` — a message that
does not name the configured limit; the handler's own
`Too many files. Max N` branch is never reached. -/
theorem C9_too_many_files_multer
    (cfg : EnvCfg) (dur : UFile → ℚ) (files : List UFile)
    (outputs : List AudioOutputSpec) (debug : Option DebugLevel)
    (ifiles : List UFile) (ioutputs : List ImageOutputSpec)
    (idebug : Option DebugLevel)
    (h : cfg.MAX_AUDIO_BATCH_FILES < files.length)
    (hi : cfg.MAX_IMAGE_BATCH_FILES < ifiles.length) :
    audioPeaksBatchRoute cfg dur files outputs debug =
      ⟨400, some ("Upload error: " ++ multerLimitMsg), false, [], [], []⟩ ∧
    imageBatchRoute cfg ifiles ioutputs idebug =
      ⟨400, some ("Upload error: " ++ multerLimitMsg), false, [], [], []⟩ ∧
    ¬ mentions ("Upload error: " ++ multerLimitMsg) "Max" := by
  refine ⟨?_, ?_, ?_⟩
  · simp only [audioPeaksBatchRoute, if_pos h]
  · simp only [imageBatchRoute, if_pos hi]
  · unfold mentions multerLimitMsg
    decide

/-- Witness for C9: four audio files against the default cap of three, and
sixteen image files against the default cap of fifteen. -/
theorem C9_too_many_files_multer_witness :
    audioPeaksBatchRoute {} (fun _ => (60 : ℚ))
      [⟨"1.wav", []⟩, ⟨"2.wav", []⟩, ⟨"3.wav", []⟩, ⟨"4.wav", []⟩] [] none =
    ⟨400, some ("Upload error: " ++ multerLimitMsg), false, [], [], []⟩ :=
  (C9_too_many_files_multer {} (fun _ => (60 : ℚ))
    [⟨"1.wav", []⟩, ⟨"2.wav", []⟩, ⟨"3.wav", []⟩, ⟨"4.wav", []⟩] [] none
    (List.replicate 16 ⟨"a.png", []⟩) [] none
    (by decide) (by decide)).1

/-- Claim C8, counterexample: the single-file endpoints validate `debug`
through the zod enum, so `debug=verbose` is rejected with 400
`Invalid parameters` instead of being treated as no debug requested. -/
theorem C8_counterexample :
    singleEndpointDebugGate (some "verbose") =
      (400, some "Invalid parameters", none) ∧
    singleEndpointDebugGate (some "verbose") ≠
      (200, none, parseDebugLevel (some "verbose")) := by
  constructor
  · decide
  · decide

/-- Claim C8 (amended): a debug value outside the enum is treated as no
debug requested — and never rejected — by the batch endpoints, whose
`parseDebugLevel` returns `undefined` for it; the single-file endpoints
instead reject such a value with 400 `Invalid parameters` through their
zod query schema. -/
theorem C8_debug_leniency (s : String)
    (h : strToDebugLevel (lowerStr s) = none) :
    parseDebugLevel (some s) = none ∧
    singleEndpointDebugGate (some s) = (400, some "Invalid parameters", none) ∧
    (∀ (cfg : EnvCfg) (dur : UFile → ℚ) (files : List UFile)
        (outputs : List AudioOutputSpec),
      audioPeaksBatchRoute cfg dur files outputs (parseDebugLevel (some s)) =
        audioPeaksBatchRoute cfg dur files outputs none) ∧
    (∀ (cfg : EnvCfg) (ifiles : List UFile) (ioutputs : List ImageOutputSpec),
      imageBatchRoute cfg ifiles ioutputs (parseDebugLevel (some s)) =
        imageBatchRoute cfg ifiles ioutputs none) := by
  have hp : parseDebugLevel (some s) = none := by
    by_cases hs : s = "" <;> simp [parseDebugLevel, hs, h]
  refine ⟨hp, ?_, ?_, ?_⟩
  · simp [singleEndpointDebugGate, queryDebugField, h]
  · intro cfg dur files outputs
    rw [hp]
  · intro cfg ifiles ioutputs
    rw [hp]

/-- Witness for C8: the amended theorem at `debug=verbose`. -/
theorem C8_debug_leniency_witness :
    parseDebugLevel (some "verbose") = none ∧
    singleEndpointDebugGate (some "verbose") =
      (400, some "Invalid parameters", none) :=
  ⟨(C8_debug_leniency "verbose" (by decide)).1,
    (C8_debug_leniency "verbose" (by decide)).2.1⟩

/-- Claim C7, violated by the code on the probing-loop 400 paths: a
two-file batch whose second manifest item's file has the unsupported
extension `txt` is rejected inside the probing loop (audio.ts lines
384-390) with a clean early `return` — nothing has been streamed, so the
400 JSON is delivered — but the first file's temp (path 0), created in an
earlier iteration of that loop, is never deleted: this path neither cleans
the accumulated contexts nor reaches the `catch` block. -/
theorem C7_temp_leak :
    (audioPeaksBatch {} (fun _ => (60 : ℚ))
        [⟨"a.wav", []⟩, ⟨"b.txt", []⟩]
        [⟨"a.wav", []⟩, ⟨"b.txt", []⟩] none) =
      ⟨400, some (unsupportedMsg "txt"), false, [], [0], []⟩ ∧
    0 ∈ (audioPeaksBatch {} (fun _ => (60 : ℚ))
        [⟨"a.wav", []⟩, ⟨"b.txt", []⟩]
        [⟨"a.wav", []⟩, ⟨"b.txt", []⟩] none).tempsCreated ∧
    0 ∉ (audioPeaksBatch {} (fun _ => (60 : ℚ))
        [⟨"a.wav", []⟩, ⟨"b.txt", []⟩]
        [⟨"a.wav", []⟩, ⟨"b.txt", []⟩] none).tempsDeleted := by
  have h2 : (audioPeaksBatch {} (fun _ => (60 : ℚ))
      [⟨"a.wav", []⟩, ⟨"b.txt", []⟩]
      [⟨"a.wav", []⟩, ⟨"b.txt", []⟩] none) =
      ⟨400, some (unsupportedMsg "txt"), false, [], [0], []⟩ := by
    simp [audioPeaksBatch, probeLoop, fileMapGet, fileMapHas, itemFile,
      extLower, basenameOf, nameNoExt, sanitizeName, splitChars,
      detectAudioFormat, validateAudioExtension, SUPPORTED_AUDIO_FORMATS,
      byteAt, mkFileCtx]
  rw [h2]
  refine ⟨rfl, by decide, by decide⟩

/-- Congruence for `flatMap` under pointwise equality on members. -/
theorem flatMap_congr_mem {α β : Type} (l : List α) (F G : α → List β)
    (h : ∀ x ∈ l, F x = G x) : l.flatMap F = l.flatMap G := by
  induction l with
  | nil => rfl
  | cons a t ih =>
    simp only [List.flatMap_cons, h a (List.mem_cons_self a t),
      ih (fun x hx => h x (List.mem_cons_of_mem a hx))]

/-- A batch request that passes every validation gate and whose probing
loop succeeds reaches the processing loop with the probing loop's contexts
and `manifest.json` already archived. -/
theorem audioBatch_reaches_loop (cfg : EnvCfg) (dur : UFile → ℚ)
    (files : List UFile) (outputs : List AudioOutputSpec)
    (debug : Option DebugLevel)
    (h1 : files.length ≠ 0)
    (h2 : files.length ≤ cfg.MAX_AUDIO_BATCH_FILES)
    (h3 : ∀ item ∈ outputs, item.variants.length ≤ cfg.MAX_AUDIO_VARIANTS_PER_FILE)
    (h4 : ∀ item ∈ outputs, fileMapHas files item.file = true)
    (h5 : ∀ item ∈ outputs, extCheckOk files item = true) :
    audioPeaksBatchRoute cfg dur files outputs debug =
      match processItems (mkFileCtxs dur files outputs 0) outputs
          ⟨["manifest.json"], []⟩ with
      | .ok st =>
        match debug with
        | none =>
          ⟨200, none, true, st.entries,
            (mkFileCtxs dur files outputs 0).map (·.tempPath), st.deleted⟩
        | some _ =>
          if outputs.isEmpty then
            ⟨200, none, true, st.entries ++ ["debug.json"],
              (mkFileCtxs dur files outputs 0).map (·.tempPath), st.deleted⟩
          else
            ⟨200, none, true, st.entries,
              (mkFileCtxs dur files outputs 0).map (·.tempPath),
              st.deleted ++ (mkFileCtxs dur files outputs 0).map (·.tempPath)⟩
      | .badSamples nm st =>
        ⟨400, some ("Invalid samples configuration for " ++ nm), true,
          st.entries, (mkFileCtxs dur files outputs 0).map (·.tempPath),
          st.deleted ++ (mkFileCtxs dur files outputs 0).map (·.tempPath)⟩
      | .thrown st =>
        ⟨500, some "Failed to process audio batch", true, st.entries,
          (mkFileCtxs dur files outputs 0).map (·.tempPath),
          st.deleted ++ (mkFileCtxs dur files outputs 0).map (·.tempPath)⟩ := by
  have hcap : outputs.find? (fun item =>
      decide (cfg.MAX_AUDIO_VARIANTS_PER_FILE < item.variants.length)) = none :=
    List.find?_eq_none.mpr (fun it hit => by
      simpa using Nat.not_lt.mpr (h3 it hit))
  have hmiss : outputs.find? (fun item => !fileMapHas files item.file) = none :=
    List.find?_eq_none.mpr (fun it hit => by simp [h4 it hit])
  have hprobe := probeLoop_eq_ok dur files outputs 0 [] h5
  simp only [audioPeaksBatchRoute, audioPeaksBatch,
    if_neg (Nat.not_lt.mpr h2), if_neg h1, hcap, hmiss, hprobe,
    List.nil_append]

/-- Claim C3: the resolved sample count of an audio batch variant is the
explicit `samples` when given and otherwise
`round(durationSeconds/60 * samplesPerMinute)` with the density defaulting
to 120 (60 s at the default resolves to 120); a variant whose resolved
count falls outside `[1, 10000]` fails the whole batch with a 400 naming
that file, and the check is per-variant — the archive already holds
`manifest.json` and one entry for every variant that preceded it. -/
theorem C3_sample_count_resolution
    (cfg : EnvCfg) (dur : UFile → ℚ) (files : List UFile)
    (outputs good rest : List AudioOutputSpec) (debug : Option DebugLevel)
    (f : String) (pre : List AudioVariantSpec) (bad : AudioVariantSpec)
    (post : List AudioVariantSpec)
    (houtputs : outputs = good ++ ⟨f, pre ++ bad :: post⟩ :: rest)
    (h1 : files.length ≠ 0)
    (h2 : files.length ≤ cfg.MAX_AUDIO_BATCH_FILES)
    (h3 : ∀ item ∈ outputs, item.variants.length ≤ cfg.MAX_AUDIO_VARIANTS_PER_FILE)
    (h4 : ∀ item ∈ outputs, fileMapHas files item.file = true)
    (h5 : ∀ item ∈ outputs, extCheckOk files item = true)
    (h6 : (outputs.map (·.file)).Nodup)
    (h7 : ∀ item ∈ good, ∀ v ∈ item.variants, variantInRange v (dur (itemFile files item)))
    (h8 : ∀ v ∈ pre, variantInRange v (dur (itemFile files ⟨f, pre ++ bad :: post⟩)))
    (h9 : resolveSamples bad (dur (itemFile files ⟨f, pre ++ bad :: post⟩)) ≤ 0 ∨
      10000 < resolveSamples bad (dur (itemFile files ⟨f, pre ++ bad :: post⟩))) :
    (audioPeaksBatchRoute cfg dur files outputs debug).status = 400 ∧
    (audioPeaksBatchRoute cfg dur files outputs debug).errorMsg =
      some ("Invalid samples configuration for " ++ f) ∧
    (audioPeaksBatchRoute cfg dur files outputs debug).entries =
      "manifest.json" :: (good.flatMap (audioItemEntries dur files) ++
        audioItemEntries dur files ⟨f, pre⟩) ∧
    resolveSamples ⟨none, none, none⟩ 60 = 120 ∧
    (∀ (v : AudioVariantSpec) (d : ℚ), resolveSamples v d =
      v.samples.getD (jsRound (d / 60 * ((v.samplesPerMinute.getD 120 : ℤ) : ℚ)))) := by
  set badItem : AudioOutputSpec := ⟨f, pre ++ bad :: post⟩ with hbadItem
  have hmemBad : badItem ∈ outputs := by
    rw [houtputs]
    exact List.mem_append_right good (List.mem_cons_self badItem rest)
  have hsub : (good ++ [badItem]).Sublist outputs := by
    rw [houtputs]
    exact List.Sublist.append_left
      (List.cons_sublist_cons.mpr (List.nil_sublist rest)) good
  have hsubset : ∀ it ∈ good ++ [badItem], it ∈ outputs :=
    fun it hit => hsub.subset hit
  have hpwfiles : outputs.Pairwise (fun a b => a.file ≠ b.file) :=
    List.pairwise_map.mp h6
  have hpwtemp : (good ++ [badItem]).Pairwise (fun a b =>
      (ctxFor dur files outputs a).tempPath ≠ (ctxFor dur files outputs b).tempPath) :=
    (hpwfiles.sublist hsub).imp_of_mem (fun ha hb hne =>
      ctxFor_temp_ne dur files outputs _ _ (hsubset _ ha) (hsubset _ hb) h4 hne)
  have hrun := processItems_run_bad (mkFileCtxs dur files outputs 0)
    (ctxFor dur files outputs) badItem rest pre bad post good
    ⟨["manifest.json"], []⟩
    (fun it hit => (ctxFor_spec dur files outputs it (hsubset it hit) h4).1)
    (fun it hit v hv => by
      rw [(ctxFor_spec dur files outputs it
        (hsubset it (List.mem_append_left [badItem] hit)) h4).2.2.1]
      exact h7 it hit v hv)
    (fun v hv => by
      rw [(ctxFor_spec dur files outputs badItem hmemBad h4).2.2.1]
      exact h8 v hv)
    (by
      rw [(ctxFor_spec dur files outputs badItem hmemBad h4).2.2.1]
      exact h9)
    (fun it _ => List.not_mem_nil _)
    hpwtemp
    rfl
  have hloop := audioBatch_reaches_loop cfg dur files outputs debug h1 h2 h3 h4 h5
  have hname : (ctxFor dur files outputs badItem).inputFile.originalname = f :=
    (ctxFor_spec dur files outputs badItem hmemBad h4).2.2.2.2.1
  have hitems : good ++ badItem :: rest = outputs := houtputs.symm
  rw [hitems] at hrun
  have hentriesGood : good.flatMap (fun item => item.variants.map (fun v =>
      audioEntryPath (ctxFor dur files outputs item).baseName
        (resolveSamples v (ctxFor dur files outputs item).durationSeconds) v)) =
      good.flatMap (audioItemEntries dur files) := by
    apply flatMap_congr_mem
    intro it hit
    have hs := ctxFor_spec dur files outputs it
      (hsubset it (List.mem_append_left [badItem] hit)) h4
    rw [hs.2.2.1, hs.2.2.2.1]
    rfl
  have hentriesPre : pre.map (fun v =>
      audioEntryPath (ctxFor dur files outputs badItem).baseName
        (resolveSamples v (ctxFor dur files outputs badItem).durationSeconds) v) =
      audioItemEntries dur files ⟨f, pre⟩ := by
    have hs := ctxFor_spec dur files outputs badItem hmemBad h4
    rw [hs.2.2.1, hs.2.2.2.1]
    rfl
  refine ⟨?_, ?_, ?_, by norm_num [resolveSamples, jsRound], fun v d => rfl⟩
  · rw [hloop, hrun]
  · rw [hloop, hrun]
    simp [hname]
  · rw [hloop, hrun]
    simp [hentriesGood, hentriesPre, hbadItem]

/-- Witness for C3: one 10-second file whose single variant asks for one
sample per minute, resolving to `round(10/60) = 0` samples. -/
theorem C3_sample_count_resolution_witness :
    (audioPeaksBatchRoute {}
      (fun f => if f.originalname = "a.wav" then (10 : ℚ) else 60)
      [⟨"a.wav", []⟩] [⟨"a.wav", [⟨none, some 1, none⟩]⟩] none).status = 400 ∧
    (audioPeaksBatchRoute {}
      (fun f => if f.originalname = "a.wav" then (10 : ℚ) else 60)
      [⟨"a.wav", []⟩] [⟨"a.wav", [⟨none, some 1, none⟩]⟩] none).errorMsg =
      some ("Invalid samples configuration for " ++ "a.wav") := by
  have hdur : (fun (f : UFile) => if f.originalname = "a.wav" then (10 : ℚ) else 60)
      (itemFile [⟨"a.wav", []⟩] ⟨"a.wav", [] ++ ⟨none, some 1, none⟩ :: []⟩) = 10 := by
    have hIF : itemFile [⟨"a.wav", []⟩]
        ⟨"a.wav", [] ++ ⟨none, some 1, none⟩ :: []⟩ = ⟨"a.wav", []⟩ := by decide
    rw [hIF]
    simp
  have h := C3_sample_count_resolution {}
    (fun f => if f.originalname = "a.wav" then (10 : ℚ) else 60)
    [⟨"a.wav", []⟩] [⟨"a.wav", [⟨none, some 1, none⟩]⟩] [] [] none
    "a.wav" [] ⟨none, some 1, none⟩ []
    rfl (by decide) (by decide) (by decide) (by decide) (by decide) (by decide)
    (by simp) (by simp)
    (by
      left
      rw [hdur]
      norm_num [resolveSamples, jsRound])
  exact ⟨h.1, h.2.1⟩

/-- Claim C2, counterexample: a batch request that passes validation (one
file, one variant, all gates green) but whose single variant's derived
sample count is 0 aborts after `manifest.json`: the archive receives 1
entry, not the claimed `1 + Σvariants + (1 if debug)` = 2. -/
theorem C2_counterexample :
    (audioPeaksBatchRoute {} (fun _ => (10 : ℚ)) [⟨"a.wav", []⟩]
      [⟨"a.wav", [⟨none, some 1, none⟩]⟩] none).entries = ["manifest.json"] ∧
    (audioPeaksBatchRoute {} (fun _ => (10 : ℚ)) [⟨"a.wav", []⟩]
      [⟨"a.wav", [⟨none, some 1, none⟩]⟩] none).entries.length ≠
      1 + (([⟨"a.wav", [⟨none, some 1, none⟩]⟩] : List AudioOutputSpec).map
        (fun it => it.variants.length)).sum + 0 := by
  have h1 : resolveSamples ⟨none, some 1, none⟩ ((10 : ℚ)) = 0 := by
    norm_num [resolveSamples, jsRound]
  have h2 : (audioPeaksBatchRoute {} (fun _ => (10 : ℚ)) [⟨"a.wav", []⟩]
      [⟨"a.wav", [⟨none, some 1, none⟩]⟩] none) =
      ⟨400, some "Invalid samples configuration for a.wav", true,
        ["manifest.json"], [0], [0, 0]⟩ := by
    simp [audioPeaksBatchRoute, audioPeaksBatch, probeLoop, processItems,
      processVariants, fileMapGet, fileMapHas, itemFile, extLower, basenameOf,
      nameNoExt, sanitizeName, splitChars, detectAudioFormat,
      validateAudioExtension, SUPPORTED_AUDIO_FORMATS, byteAt, h1,
      audioEntryPath, variantFileName]
  rw [h2]
  exact ⟨rfl, by decide⟩

/-- Claim C2 (amended: every resolved audio sample count in range, no two
audio manifest entries for the same file, and the debug-requested case
restated per the code's streaming behavior): a validation-passing batch
request's archive receives `manifest.json` first, then one entry per
variant in manifest order and variant-spec order; with no debug level
requested the entry count is `1 + Σvariants`; when a debug level was
requested and at least one manifest item (audio) resp. one variant
(image) was processed, the debug branch's `res.set` throws after
streaming began, so `debug.json` is never appended and the archive holds
the same `1 + Σvariants` entries, unfinalized; `debug.json` is the final
entry only in the degenerate streams where nothing followed the manifest
(audio: empty manifest; image: all variant lists empty). -/
theorem C2_archive_layout
    (cfg : EnvCfg) (dur : UFile → ℚ) (files : List UFile)
    (outputs : List AudioOutputSpec)
    (ifiles : List UFile) (ioutputs : List ImageOutputSpec)
    (h1 : files.length ≠ 0)
    (h2 : files.length ≤ cfg.MAX_AUDIO_BATCH_FILES)
    (h3 : ∀ item ∈ outputs, item.variants.length ≤ cfg.MAX_AUDIO_VARIANTS_PER_FILE)
    (h4 : ∀ item ∈ outputs, fileMapHas files item.file = true)
    (h5 : ∀ item ∈ outputs, extCheckOk files item = true)
    (h6 : (outputs.map (·.file)).Nodup)
    (h7 : ∀ item ∈ outputs, ∀ v ∈ item.variants,
      variantInRange v (dur (itemFile files item)))
    (i1 : ifiles.length ≠ 0)
    (i2 : ifiles.length ≤ cfg.MAX_IMAGE_BATCH_FILES)
    (i3 : ∀ item ∈ ioutputs, item.variants.length ≤ cfg.MAX_IMAGE_VARIANTS_PER_FILE)
    (i4 : ∀ item ∈ ioutputs, fileMapHas ifiles item.file = true) :
    (audioPeaksBatchRoute cfg dur files outputs none).status = 200 ∧
    (audioPeaksBatchRoute cfg dur files outputs none).entries =
      "manifest.json" :: outputs.flatMap (audioItemEntries dur files) ∧
    (audioPeaksBatchRoute cfg dur files outputs none).entries.length =
      1 + (outputs.map (fun it => it.variants.length)).sum ∧
    (∀ lvl : DebugLevel, outputs ≠ [] →
      (audioPeaksBatchRoute cfg dur files outputs (some lvl)).entries =
        "manifest.json" :: outputs.flatMap (audioItemEntries dur files)) ∧
    (∀ lvl : DebugLevel, outputs = [] →
      (audioPeaksBatchRoute cfg dur files outputs (some lvl)).entries =
        ["manifest.json", "debug.json"]) ∧
    (imageBatchRoute cfg ifiles ioutputs none).entries =
      "manifest.json" :: ioutputs.flatMap (imageItemEntries ifiles) ∧
    (imageBatchRoute cfg ifiles ioutputs none).entries.length =
      1 + (ioutputs.map (fun it => it.variants.length)).sum ∧
    (∀ lvl : DebugLevel,
      ioutputs.all (fun it => it.variants.isEmpty) = false →
      (imageBatchRoute cfg ifiles ioutputs (some lvl)).entries =
        "manifest.json" :: ioutputs.flatMap (imageItemEntries ifiles)) ∧
    (∀ lvl : DebugLevel,
      ioutputs.all (fun it => it.variants.isEmpty) = true →
      (imageBatchRoute cfg ifiles ioutputs (some lvl)).entries =
        "manifest.json" :: (ioutputs.flatMap (imageItemEntries ifiles) ++
          ["debug.json"])) := by
  have hpwfiles : outputs.Pairwise (fun a b => a.file ≠ b.file) :=
    List.pairwise_map.mp h6
  have hpwtemp : outputs.Pairwise (fun a b =>
      (ctxFor dur files outputs a).tempPath ≠ (ctxFor dur files outputs b).tempPath) :=
    hpwfiles.imp_of_mem (fun ha hb hne =>
      ctxFor_temp_ne dur files outputs _ _ ha hb h4 hne)
  have hrun := processItems_run_ok (mkFileCtxs dur files outputs 0)
    (ctxFor dur files outputs) outputs ⟨["manifest.json"], []⟩
    (fun it hit => (ctxFor_spec dur files outputs it hit h4).1)
    (fun it hit v hv => by
      rw [(ctxFor_spec dur files outputs it hit h4).2.2.1]
      exact h7 it hit v hv)
    (fun it _ => List.not_mem_nil _)
    hpwtemp
  have hentries : outputs.flatMap (fun item => item.variants.map (fun v =>
      audioEntryPath (ctxFor dur files outputs item).baseName
        (resolveSamples v (ctxFor dur files outputs item).durationSeconds) v)) =
      outputs.flatMap (audioItemEntries dur files) := by
    apply flatMap_congr_mem
    intro it hit
    have hs := ctxFor_spec dur files outputs it hit h4
    rw [hs.2.2.1, hs.2.2.2.1]
    rfl
  have hloopN := audioBatch_reaches_loop cfg dur files outputs none h1 h2 h3 h4 h5
  have hlen : (outputs.flatMap (audioItemEntries dur files)).length =
      (outputs.map (fun it => it.variants.length)).sum := by
    rw [List.length_flatMap]
    congr 1
    apply List.map_congr_left
    intro it _
    simp [audioItemEntries, Function.comp]
  have icap : ioutputs.find? (fun item =>
      decide (cfg.MAX_IMAGE_VARIANTS_PER_FILE < item.variants.length)) = none :=
    List.find?_eq_none.mpr (fun it hit => by
      simpa using Nat.not_lt.mpr (i3 it hit))
  have imiss : ioutputs.find? (fun item => !fileMapHas ifiles item.file) = none :=
    List.find?_eq_none.mpr (fun it hit => by simp [i4 it hit])
  have himgN : imageBatchRoute cfg ifiles ioutputs none =
      ⟨200, none, true,
        "manifest.json" :: ioutputs.flatMap (imageItemEntries ifiles),
        [], []⟩ := by
    simp only [imageBatchRoute, imageBatch,
      if_neg (Nat.not_lt.mpr i2), if_neg i1, icap, imiss]
  have ilen : (ioutputs.flatMap (imageItemEntries ifiles)).length =
      (ioutputs.map (fun it => it.variants.length)).sum := by
    rw [List.length_flatMap]
    congr 1
    apply List.map_congr_left
    intro it _
    simp [imageItemEntries, Function.comp]
  refine ⟨?_, ?_, ?_, ?_, ?_, ?_, ?_, ?_, ?_⟩
  · rw [hloopN, hrun]
  · rw [hloopN, hrun]
    simp [hentries]
  · rw [hloopN, hrun]
    simp only [hentries]
    simp [hlen, Nat.add_comm]
  · intro lvl hne
    have hni : outputs.isEmpty = false := by
      cases outputs with
      | nil => exact absurd rfl hne
      | cons a t => rfl
    have hloopS := audioBatch_reaches_loop cfg dur files outputs (some lvl)
      h1 h2 h3 h4 h5
    rw [hloopS, hrun]
    simp [hni, hentries]
  · intro lvl h0
    subst h0
    simp [audioPeaksBatchRoute, audioPeaksBatch, h1, Nat.not_lt.mpr h2,
      probeLoop, processItems]
  · rw [himgN]
  · rw [himgN]
    simp [ilen, Nat.add_comm]
  · intro lvl hall
    simp [imageBatchRoute, imageBatch, Nat.not_lt.mpr i2, i1, icap, imiss, hall]
  · intro lvl hall
    simp [imageBatchRoute, imageBatch, Nat.not_lt.mpr i2, i1, icap, imiss, hall]

/-- Witness for C2: a one-file, one-variant audio batch with debug
requested (its archive ends after the variant entry, without
`debug.json`), and a one-file, one-variant image batch without debug. -/
theorem C2_archive_layout_witness :
    (audioPeaksBatchRoute {} (fun _ => (60 : ℚ)) [⟨"a.wav", []⟩]
      [⟨"a.wav", [⟨some 100, none, none⟩]⟩] (some .info)).entries =
      "manifest.json" ::
        ([⟨"a.wav", [⟨some 100, none, none⟩]⟩] : List AudioOutputSpec).flatMap
          (audioItemEntries (fun _ => (60 : ℚ)) [⟨"a.wav", []⟩]) ∧
    (imageBatchRoute {} [⟨"a.png", []⟩]
      [⟨"a.png", [⟨"webp", none, none, "cover", none⟩]⟩] none).entries.length =
      1 + 1 := by
  have h := C2_archive_layout {} (fun _ => (60 : ℚ)) [⟨"a.wav", []⟩]
    [⟨"a.wav", [⟨some 100, none, none⟩]⟩]
    [⟨"a.png", []⟩] [⟨"a.png", [⟨"webp", none, none, "cover", none⟩]⟩]
    (by decide) (by decide) (by decide) (by decide) (by decide) (by decide)
    (by
      intro item hitem v hv
      simp only [List.mem_singleton] at hitem
      subst hitem
      simp only [List.mem_singleton] at hv
      subst hv
      constructor <;> norm_num [resolveSamples])
    (by decide) (by decide) (by decide) (by decide)
  refine ⟨?_, ?_⟩
  · exact h.2.2.2.1 .info (by simp)
  · have := h.2.2.2.2.2.2.1
    simpa using this

end Delman
